import Mathlib

/-!
Verification of the PingOps outbound-call capture pipeline (pingops-io/pingops-js).

This file shallowly embeds the header filtering/redaction engine
(`packages/core/src/filtering/header-filter.ts`, `sensitive-headers.ts`),
the domain filter (`span-filter.ts`), the domain-rule matcher and capture-policy
resolvers (`packages/core/src/utils/span-extractor.ts`,
`packages/otel/src/instrumentations/undici/undici.ts`), the streamed body
buffer of the undici instrumentation, and the network-timing derivation of the
http instrumentation (`packages/otel/src/instrumentations/http/http.ts`),
and proves the specified properties about them.

Modelling conventions:
- JavaScript strings are Lean `String`s; `.length`, `.toLowerCase()`,
  `.trim()`, `.includes()`, `.startsWith()`, `.endsWith()`, `.slice(1)` and
  `.substring` are modelled over the character list (they agree with the
  JS operations on the ASCII data these functions receive).
- `undefined`-able values are `Option`s; JS numbers that the code compares
  are `Int`s (timestamps) or `Nat`s (sizes); the `Infinity` sentinel used by
  the body buffer is a dedicated constructor.
- `Record<string, V>` header maps are association lists `List (String × V)`
  in insertion order with the usual unique-key discipline of JS objects.
-/

/-- Models JS `String.prototype.toLowerCase` (ASCII inputs): lowercase each
character. -/
def jsToLower (s : String) : String :=
  String.mk (s.data.map Char.toLower)

/-- Models JS `String.prototype.trim`: drop leading and trailing whitespace. -/
def jsTrim (s : String) : String :=
  String.mk (((s.data.dropWhile Char.isWhitespace).reverse.dropWhile Char.isWhitespace).reverse)

/-- Is `p` a contiguous substring of `s` (both as character lists)? -/
def containsSub (p : List Char) : List Char → Bool
  | [] => p.isEmpty
  | c :: t => p.isPrefixOf (c :: t) || containsSub p t

/-- Models JS `String.prototype.includes`: `jsIncludes s p` is true when `p`
occurs contiguously in `s`. -/
def jsIncludes (s p : String) : Bool :=
  containsSub p.data s.data

/-- Models JS `String.prototype.slice(1)`: everything after the first
UTF-16 unit (here: the first character). -/
def jsSlice1 (s : String) : String :=
  String.mk (s.data.drop 1)

/-- Header values in the code are `string | string[] | undefined`. -/
inductive HeaderValue
  | str (s : String)
  | list (l : List String)
  | undef
deriving DecidableEq, Repr

/-- `DEFAULT_SENSITIVE_HEADER_PATTERNS` from `sensitive-headers.ts`. -/
def DEFAULT_SENSITIVE_HEADER_PATTERNS : List String :=
  [ "authorization", "www-authenticate", "proxy-authenticate",
    "proxy-authorization", "x-auth-token", "x-api-key", "x-api-token",
    "x-access-token", "x-auth-user", "x-auth-password", "x-csrf-token",
    "x-xsrf-token",
    "api-key", "apikey", "api_key", "access-key", "accesskey", "access_key",
    "secret-key", "secretkey", "secret_key", "private-key", "privatekey",
    "private_key",
    "cookie", "set-cookie", "session-id", "sessionid", "session_id",
    "session-token", "sessiontoken", "session_token",
    "oauth-token", "oauth_token", "oauth2-token", "oauth2_token", "bearer",
    "x-amz-security-token", "x-amz-signature", "x-aws-access-key",
    "x-aws-secret-key", "x-aws-session-token",
    "x-password", "x-secret", "x-token", "x-jwt", "x-jwt-token",
    "x-refresh-token", "x-client-secret", "x-client-id", "x-user-token",
    "x-service-key" ]

/-- `HeaderRedactionStrategy` from `sensitive-headers.ts`
(REPLACE = "replace", PARTIAL = "partial", PARTIAL_END = "partial_end",
REMOVE = "remove"). -/
inductive HeaderRedactionStrategy
  | REPLACE
  | PARTIAL
  | PARTIAL_END
  | REMOVE
deriving DecidableEq, Repr

/-- `HeaderRedactionConfig` from `sensitive-headers.ts`: every field optional. -/
structure HeaderRedactionConfig where
  sensitivePatterns : Option (List String)
  strategy : Option HeaderRedactionStrategy
  redactionString : Option String
  visibleChars : Option Int
  enabled : Option Bool
deriving DecidableEq, Repr

/-- `Required<HeaderRedactionConfig>`: the merged configuration. -/
structure RequiredHeaderRedactionConfig where
  sensitivePatterns : List String
  strategy : HeaderRedactionStrategy
  redactionString : String
  visibleChars : Int
  enabled : Bool
deriving DecidableEq, Repr

/-- `DEFAULT_REDACTION_CONFIG` from `sensitive-headers.ts`. -/
def DEFAULT_REDACTION_CONFIG : RequiredHeaderRedactionConfig :=
  { sensitivePatterns := DEFAULT_SENSITIVE_HEADER_PATTERNS
    strategy := HeaderRedactionStrategy.REPLACE
    redactionString := "[REDACTED]"
    visibleChars := 4
    enabled := true }

/-- `mergeRedactionConfig` from `header-filter.ts`: `undefined` config uses
the default; `enabled: false` keeps the defaults but disabled; otherwise each
field falls back to the default (`??`). -/
def mergeRedactionConfig : Option HeaderRedactionConfig → RequiredHeaderRedactionConfig
  | none => DEFAULT_REDACTION_CONFIG
  | some config =>
    if config.enabled = some false then
      { DEFAULT_REDACTION_CONFIG with enabled := false }
    else
      { sensitivePatterns :=
          config.sensitivePatterns.getD DEFAULT_REDACTION_CONFIG.sensitivePatterns
        strategy := config.strategy.getD DEFAULT_REDACTION_CONFIG.strategy
        redactionString :=
          config.redactionString.getD DEFAULT_REDACTION_CONFIG.redactionString
        visibleChars := config.visibleChars.getD DEFAULT_REDACTION_CONFIG.visibleChars
        enabled := config.enabled.getD DEFAULT_REDACTION_CONFIG.enabled }

/-- `isSensitiveHeader` from `sensitive-headers.ts`: case-insensitive exact,
substring, or reverse-substring match of the trimmed lowercased name against
the trimmed lowercased patterns; empty names and empty patterns never match. -/
def isSensitiveHeader (headerName : String) (patterns : List String) : Bool :=
  if headerName = "" then false
  else if patterns.isEmpty then false
  else
    let normalizedName := jsTrim (jsToLower headerName)
    if normalizedName = "" then false
    else
      patterns.any fun pat =>
        if pat = "" then false
        else
          let normalizedPattern := jsTrim (jsToLower pat)
          if normalizedPattern = "" then false
          else
            normalizedName = normalizedPattern
              || jsIncludes normalizedName normalizedPattern
              || jsIncludes normalizedPattern normalizedName

/-- `redactSingleValue` from `sensitive-headers.ts`. An empty value is falsy
in JS (`if (!value ...) return value`) and is returned unchanged;
`visibleChars` is clamped to `Math.max(0, Math.floor(config.visibleChars || 0))`
(the identity `max 0` clamp on our integer model). -/
def redactSingleValue (value : String) (config : RequiredHeaderRedactionConfig) : String :=
  if value = "" then value
  else
    let visibleChars : Int := max 0 config.visibleChars
    let trimmedValue := jsTrim value
    if trimmedValue = "" then config.redactionString
    else
      match config.strategy with
      | HeaderRedactionStrategy.REPLACE => config.redactionString
      | HeaderRedactionStrategy.PARTIAL =>
        if (trimmedValue.length : Int) ≤ visibleChars then config.redactionString
        else String.mk (trimmedValue.data.take visibleChars.toNat) ++ config.redactionString
      | HeaderRedactionStrategy.PARTIAL_END =>
        if (trimmedValue.length : Int) ≤ visibleChars then config.redactionString
        else config.redactionString
          ++ String.mk (trimmedValue.data.drop (trimmedValue.length - visibleChars.toNat))
      | HeaderRedactionStrategy.REMOVE => config.redactionString

/-- `redactHeaderValue` from `sensitive-headers.ts`: map over arrays,
pass `undefined` through. -/
def redactHeaderValue (value : HeaderValue) (config : RequiredHeaderRedactionConfig) :
    HeaderValue :=
  match value with
  | HeaderValue.undef => HeaderValue.undef
  | HeaderValue.str s => HeaderValue.str (redactSingleValue s config)
  | HeaderValue.list l => HeaderValue.list (l.map fun v => redactSingleValue v config)

/-- The per-entry body of the `filterHeaders` loop (`header-filter.ts`):
deny list first, then the allow list when non-empty, then redaction of
sensitive names — dropping the header when the strategy is REMOVE. -/
def filterHeaderEntry (redaction : RequiredHeaderRedactionConfig)
    (normalizedDenyList normalizedAllowList : List String)
    (entry : String × HeaderValue) : Option (String × HeaderValue) :=
  let normalizedName := jsToLower entry.1
  if normalizedName ∈ normalizedDenyList then none
  else if 0 < normalizedAllowList.length ∧ normalizedName ∉ normalizedAllowList then none
  else if redaction.enabled = true ∧ isSensitiveHeader entry.1 redaction.sensitivePatterns = true then
    if redaction.strategy = HeaderRedactionStrategy.REMOVE then none
    else some (entry.1, redactHeaderValue entry.2 redaction)
  else some (entry.1, entry.2)

/-- `filterHeaders` from `header-filter.ts`. -/
def filterHeaders (headers : List (String × HeaderValue))
    (headersAllowList headersDenyList : Option (List String))
    (redactionConfig : Option HeaderRedactionConfig) : List (String × HeaderValue) :=
  let redaction := mergeRedactionConfig redactionConfig
  let normalizedDenyList := (headersDenyList.getD []).map jsToLower
  let normalizedAllowList := (headersAllowList.getD []).map jsToLower
  headers.filterMap (filterHeaderEntry redaction normalizedDenyList normalizedAllowList)

/-! ## Facts about a surviving header entry -/

/-- An entry that `filterHeaderEntry` emits kept its original name, was not on
the (lowercased) deny list, and — when redaction was enabled and the name
sensitive — the strategy was not REMOVE. -/
theorem filterHeaderEntry_eq_some (redaction : RequiredHeaderRedactionConfig)
    (nDeny nAllow : List String) (entry p : String × HeaderValue)
    (h : filterHeaderEntry redaction nDeny nAllow entry = some p) :
    p.1 = entry.1 ∧ jsToLower entry.1 ∉ nDeny ∧
      (redaction.enabled = true ∧ isSensitiveHeader entry.1 redaction.sensitivePatterns = true →
        redaction.strategy ≠ HeaderRedactionStrategy.REMOVE) := by
  simp only [filterHeaderEntry] at h
  split at h
  · exact absurd h (by simp)
  · rename_i hden
    split at h
    · exact absurd h (by simp)
    · split at h
      · split at h
        · exact absurd h (by simp)
        · rename_i hrem
          injection h with h
          subst h
          exact ⟨rfl, hden, fun _ => hrem⟩
      · rename_i hsens
        injection h with h
        subst h
        exact ⟨rfl, hden, fun hc => absurd hc hsens⟩

/-- C3: for every input header set, allow list, deny list and redaction
config, no header whose lowercased name is on the (lowercased) deny list
appears in the output of `filterHeaders` — even when the same name is also on
the allow list. -/
theorem filterHeaders_denyList_excluded
    (headers : List (String × HeaderValue))
    (allowList denyList : Option (List String))
    (cfg : Option HeaderRedactionConfig)
    (p : String × HeaderValue)
    (hp : p ∈ filterHeaders headers allowList denyList cfg) :
    jsToLower p.1 ∉ (denyList.getD []).map jsToLower := by
  simp only [filterHeaders] at hp
  rcases List.mem_filterMap.mp hp with ⟨a, _, hfa⟩
  obtain ⟨h1, h2, _⟩ := filterHeaderEntry_eq_some _ _ _ _ _ hfa
  rw [h1]
  exact h2

/-- C3 witness: deny `["authorization"]` with allow
`["authorization", "content-type"]` applied to
`{Authorization: "Bearer t", Content-Type: "json"}` yields exactly
`{Content-Type: "json"}`, and the theorem applies to the surviving entry. -/
theorem filterHeaders_denyList_excluded_witness :
    filterHeaders
        [("Authorization", HeaderValue.str "Bearer t"),
         ("Content-Type", HeaderValue.str "json")]
        (some ["authorization", "content-type"]) (some ["authorization"]) none
      = [("Content-Type", HeaderValue.str "json")]
    ∧ jsToLower "Content-Type" ∉
        ((some ["authorization"] : Option (List String)).getD []).map jsToLower :=
  ⟨by decide,
   filterHeaders_denyList_excluded
     [("Authorization", HeaderValue.str "Bearer t"),
      ("Content-Type", HeaderValue.str "json")]
     (some ["authorization", "content-type"]) (some ["authorization"]) none
     ("Content-Type", HeaderValue.str "json") (by decide)⟩

/-- C8: when redaction is enabled and the strategy is REMOVE, `filterHeaders`
emits no header whose name matches a sensitive pattern: such headers are
dropped entirely, never emitted with a placeholder value. -/
theorem filterHeaders_remove_strategy_drops
    (headers : List (String × HeaderValue))
    (allowList denyList : Option (List String))
    (cfg : Option HeaderRedactionConfig)
    (hEnabled : (mergeRedactionConfig cfg).enabled = true)
    (hRemove : (mergeRedactionConfig cfg).strategy = HeaderRedactionStrategy.REMOVE)
    (p : String × HeaderValue)
    (hp : p ∈ filterHeaders headers allowList denyList cfg) :
    isSensitiveHeader p.1 (mergeRedactionConfig cfg).sensitivePatterns = false := by
  simp only [filterHeaders] at hp
  rcases List.mem_filterMap.mp hp with ⟨a, _, hfa⟩
  obtain ⟨h1, _, h3⟩ := filterHeaderEntry_eq_some _ _ _ _ _ hfa
  rw [h1]
  by_contra hsens
  exact h3 ⟨hEnabled, by simpa using hsens⟩ hRemove

/-- C8 witness: with REMOVE enabled, `Authorization` vanishes from the output
and the surviving header is not sensitive. -/
theorem filterHeaders_remove_strategy_drops_witness :
    (mergeRedactionConfig (some
        { sensitivePatterns := none, strategy := some HeaderRedactionStrategy.REMOVE,
          redactionString := none, visibleChars := none, enabled := some true })).strategy
        = HeaderRedactionStrategy.REMOVE
    ∧ filterHeaders
        [("Authorization", HeaderValue.str "Bearer t"), ("X-Ok", HeaderValue.str "1")]
        none none
        (some { sensitivePatterns := none, strategy := some HeaderRedactionStrategy.REMOVE,
                redactionString := none, visibleChars := none, enabled := some true })
      = [("X-Ok", HeaderValue.str "1")]
    ∧ isSensitiveHeader "X-Ok"
        (mergeRedactionConfig (some
          { sensitivePatterns := none, strategy := some HeaderRedactionStrategy.REMOVE,
            redactionString := none, visibleChars := none, enabled := some true })).sensitivePatterns
      = false :=
  ⟨by decide, by decide,
   filterHeaders_remove_strategy_drops
     [("Authorization", HeaderValue.str "Bearer t"), ("X-Ok", HeaderValue.str "1")]
     none none
     (some { sensitivePatterns := none, strategy := some HeaderRedactionStrategy.REMOVE,
             redactionString := none, visibleChars := none, enabled := some true })
     (by decide) (by decide)
     ("X-Ok", HeaderValue.str "1") (by decide)⟩

/-! ## Redaction of short values (C7) -/

/-- Trimming never lengthens a string. -/
theorem jsTrim_length_le (s : String) : (jsTrim s).length ≤ s.length := by
  show (((s.data.dropWhile Char.isWhitespace).reverse.dropWhile
      Char.isWhitespace).reverse).length ≤ s.data.length
  rw [List.length_reverse]
  calc ((s.data.dropWhile Char.isWhitespace).reverse.dropWhile Char.isWhitespace).length
      ≤ (s.data.dropWhile Char.isWhitespace).reverse.length :=
        (List.dropWhile_sublist _).length_le
    _ = (s.data.dropWhile Char.isWhitespace).length := List.length_reverse _
    _ ≤ s.data.length := (List.dropWhile_sublist _).length_le

/-- C7 counterexample: with the default configuration (strategy REPLACE,
`visibleChars = 4 ≥ 0`), the empty value has length `0 ≤ 4` yet
`redactSingleValue` returns it unchanged — the output is not the configured
redaction string. -/
theorem redactSingleValue_empty_value_cex :
    (0 : Int) ≤ DEFAULT_REDACTION_CONFIG.visibleChars
    ∧ (String.length "" : Int) ≤ DEFAULT_REDACTION_CONFIG.visibleChars
    ∧ redactSingleValue "" DEFAULT_REDACTION_CONFIG = ""
    ∧ redactSingleValue "" DEFAULT_REDACTION_CONFIG ≠
        DEFAULT_REDACTION_CONFIG.redactionString := by decide

/-- C7 (amended): for every strategy and configuration with
`visibleChars = v ≥ 0`, redacting a nonempty value of length `≤ v` yields
exactly the configured redaction string, exposing no characters of the
original value; the empty value alone is returned unchanged (it has no
characters to expose). -/
theorem redactSingleValue_short_fully_redacted
    (config : RequiredHeaderRedactionConfig) (value : String)
    (hvis : 0 ≤ config.visibleChars)
    (hne : value ≠ "")
    (hlen : (value.length : Int) ≤ config.visibleChars) :
    redactSingleValue value config = config.redactionString := by
  have hmax : max 0 config.visibleChars = config.visibleChars := max_eq_right hvis
  have htrim : ((jsTrim value).length : Int) ≤ max 0 config.visibleChars := by
    rw [hmax]
    exact le_trans (by exact_mod_cast jsTrim_length_le value) hlen
  by_cases ht : jsTrim value = ""
  · simp [redactSingleValue, hne, ht]
  · cases hs : config.strategy
    · simp [redactSingleValue, hne, ht, hs]
    · simp only [redactSingleValue, if_neg hne, if_neg ht, hs]
      rw [if_pos htrim]
    · simp only [redactSingleValue, if_neg hne, if_neg ht, hs]
      rw [if_pos htrim]
    · simp [redactSingleValue, hne, ht, hs]

/-- C7 witness: `"abc"` (length 3 ≤ 4) under the default REPLACE
configuration is fully redacted. -/
theorem redactSingleValue_short_fully_redacted_witness :
    redactSingleValue "abc" DEFAULT_REDACTION_CONFIG = "[REDACTED]" :=
  redactSingleValue_short_fully_redacted DEFAULT_REDACTION_CONFIG "abc"
    (by decide) (by decide) (by decide)

/-! ## Domain rules and domain filtering -/

/-- Models JS `String.prototype.startsWith`. -/
def jsStartsWith (s p : String) : Bool :=
  p.data.isPrefixOf s.data

/-- Models JS `String.prototype.endsWith`. -/
def jsEndsWith (s p : String) : Bool :=
  p.data.isSuffixOf s.data

/-- `DomainRule` from `packages/core/src/types.ts`. -/
structure DomainRule where
  domain : String
  paths : Option (List String)
  headersAllowList : Option (List String)
  headersDenyList : Option (List String)
  captureRequestBody : Option Bool
  captureResponseBody : Option Bool
deriving DecidableEq, Repr

/-- Strip the URL scheme prefix, the first step of the source's hostname
extraction. -/
def stripScheme (url : String) : String :=
  if jsStartsWith url "https://" then String.mk (url.data.drop 8)
  else if jsStartsWith url "http://" then String.mk (url.data.drop 7)
  else url

/-- Models `extractDomain` of `span-filter.ts` (and the character-identical
`extractDomainFromUrl` of `span-extractor.ts` and `undici.ts`):
`new URL(url).hostname`, falling back to the permissive regex
`(?:https?:\/\/)?([^/]+)` when URL parsing fails. On the URLs these claims
evaluate — `scheme://host/path` with a plain lowercase host and no port,
userinfo or query — both branches agree: the hostname is the text between the
scheme separator and the first slash. -/
def extractDomain (url : String) : String :=
  String.mk ((stripScheme url).data.takeWhile fun c => c != '/')

/-- `extractDomainFromUrl` of `span-extractor.ts` / `undici.ts` (identical to
`extractDomain`). -/
def extractDomainFromUrl (url : String) : String :=
  extractDomain url

/-- The path extraction inside `shouldCaptureSpan`: `new URL(url).pathname`,
falling back to the regex `(?:https?:\/\/)?[^/]+(\/.*)?$` and defaulting to
`"/"`; on the simple URLs above both give everything from the first slash
after the host. -/
def extractPath (url : String) : String :=
  let rest := (stripScheme url).data.dropWhile fun c => c != '/'
  if rest.isEmpty then "/" else String.mk rest

/-- `domainMatches` from `span-filter.ts`: exact equality, or a rule domain
beginning with `.` and the target either ending with that literal suffix or
equal to the suffix with the leading dot removed. -/
def domainMatches (domain ruleDomain : String) : Bool :=
  if domain = ruleDomain then true
  else if jsStartsWith ruleDomain "." then
    jsEndsWith domain ruleDomain || decide (domain = jsSlice1 ruleDomain)
  else false

/-- `pathMatches` from `span-filter.ts`: no (or empty) path restriction
matches everything, otherwise prefix match against any allowed path. -/
def pathMatches (path : String) (allowedPaths : Option (List String)) : Bool :=
  match allowedPaths with
  | none => true
  | some ps => if ps.isEmpty then true else ps.any fun ap => jsStartsWith path ap

/-- `shouldCaptureSpan` from `span-filter.ts`: deny list first (any match
rejects), then capture-all when no allow list, otherwise some allow rule must
match the domain and, when the rule restricts paths, one of its path prefixes. -/
def shouldCaptureSpan (url : String)
    (domainAllowList domainDenyList : Option (List DomainRule)) : Bool :=
  let domain := extractDomain url
  let path := extractPath url
  if (domainDenyList.getD []).any (fun rule => domainMatches domain rule.domain) then
    false
  else
    match domainAllowList with
    | none => true
    | some rules =>
      if rules.isEmpty then true
      else
        rules.any fun rule =>
          domainMatches domain rule.domain &&
            (match rule.paths with
             | none => true
             | some ps => ps.isEmpty || ps.any fun ap => jsStartsWith path ap)

/-- The first-match loop of `getDomainRule` (`span-extractor.ts` and the
identical copy in `undici.ts`): a rule matches when the domain equals
`rule.domain`, ends with `"." + rule.domain`, or equals `rule.domain.slice(1)`. -/
def getDomainRuleFind (domain : String) : List DomainRule → Option DomainRule
  | [] => none
  | rule :: rest =>
    if domain = rule.domain
        ∨ jsEndsWith domain ("." ++ rule.domain) = true
        ∨ domain = jsSlice1 rule.domain then
      some rule
    else getDomainRuleFind domain rest

/-- `getDomainRule` from `span-extractor.ts` / `undici.ts`: `undefined` allow
list selects nothing; otherwise the first rule matching the URL's domain. -/
def getDomainRule (url : String) (domainAllowList : Option (List DomainRule)) :
    Option DomainRule :=
  match domainAllowList with
  | none => none
  | some rules => getDomainRuleFind (extractDomainFromUrl url) rules

/-- C4: the deny list always wins — any deny match rejects the call whatever
the allow list holds — and with no allow list (absent or empty) every
non-denied call is captured. -/
theorem shouldCaptureSpan_deny_wins
    (url : String) (domainAllowList domainDenyList : Option (List DomainRule)) :
    ((∃ rule ∈ domainDenyList.getD [],
        domainMatches (extractDomain url) rule.domain = true) →
      shouldCaptureSpan url domainAllowList domainDenyList = false)
    ∧ ((∀ rule ∈ domainDenyList.getD [],
          domainMatches (extractDomain url) rule.domain = false) →
        shouldCaptureSpan url none domainDenyList = true
        ∧ shouldCaptureSpan url (some []) domainDenyList = true) := by
  constructor
  · rintro ⟨rule, hmem, hmatch⟩
    have hany : (domainDenyList.getD []).any
        (fun r => domainMatches (extractDomain url) r.domain) = true :=
      List.any_eq_true.mpr ⟨rule, hmem, hmatch⟩
    simp [shouldCaptureSpan, hany]
  · intro h
    have hany : (domainDenyList.getD []).any
        (fun r => domainMatches (extractDomain url) r.domain) = false := by
      rw [List.any_eq_false]
      intro x hx
      simp [h x hx]
    constructor <;> simp [shouldCaptureSpan, hany]

/-- The `.example.com` suffix rule of the specification scenario. -/
def exampleSuffixRule : DomainRule :=
  { domain := ".example.com", paths := none, headersAllowList := none,
    headersDenyList := none, captureRequestBody := none, captureResponseBody := none }

/-- C5: `domainMatches` is exact equality, or — for a rule domain beginning
with `.` — a literal dotted-suffix match or equality with the suffix minus
the leading dot; hence the allow list `[.example.com]` captures
`https://api.example.com/x` and `https://example.com/x` and rejects
`https://notexample.com/x`. -/
theorem domainMatches_suffix_semantics :
    (∀ domain ruleDomain : String,
      domainMatches domain ruleDomain = true ↔
        (domain = ruleDomain ∨
          (jsStartsWith ruleDomain "." = true ∧
            (jsEndsWith domain ruleDomain = true ∨ domain = jsSlice1 ruleDomain))))
    ∧ shouldCaptureSpan "https://api.example.com/x" (some [exampleSuffixRule]) none = true
    ∧ shouldCaptureSpan "https://example.com/x" (some [exampleSuffixRule]) none = true
    ∧ shouldCaptureSpan "https://notexample.com/x" (some [exampleSuffixRule]) none = false := by
  refine ⟨?_, by decide, by decide, by decide⟩
  intro d r
  unfold domainMatches
  by_cases h1 : d = r
  · simp [h1]
  · simp only [if_neg h1]
    by_cases h2 : jsStartsWith r "." = true
    · simp [h2, h1]
    · simp [h2, h1]

/-- A plain (no leading dot) allow-list rule for `example.com`. -/
def ruleExampleCom : DomainRule :=
  { domain := "example.com", paths := none, headersAllowList := none,
    headersDenyList := none, captureRequestBody := none, captureResponseBody := none }

/-- C6 counterexample: for `https://api.example.com/x` and the rule domain
`example.com`, `getDomainRule` selects the rule (its own matcher accepts the
`.example.com`-suffixed host) while the Domain/Path Matcher's `domainMatches`
rejects it (no leading dot, no exact match) — the two matchers disagree. -/
theorem getDomainRule_vs_domainMatches_cex :
    getDomainRule "https://api.example.com/x" (some [ruleExampleCom]) = some ruleExampleCom
    ∧ domainMatches (extractDomainFromUrl "https://api.example.com/x")
        ruleExampleCom.domain = false := by decide

/-- The characterization of `getDomainRuleFind` by its own matching
predicate, in both directions: a selected rule satisfies the predicate, a
predicate-satisfying rule in the list guarantees a selection, and a list with
no satisfying rule selects nothing. -/
theorem getDomainRuleFind_characterization (d : String) (rules : List DomainRule) :
    (∀ rule, getDomainRuleFind d rules = some rule →
      rule ∈ rules ∧
        (d = rule.domain ∨ jsEndsWith d ("." ++ rule.domain) = true
          ∨ d = jsSlice1 rule.domain))
    ∧ ((∃ rule ∈ rules,
          d = rule.domain ∨ jsEndsWith d ("." ++ rule.domain) = true
            ∨ d = jsSlice1 rule.domain) →
        ∃ rule, getDomainRuleFind d rules = some rule)
    ∧ ((∀ rule ∈ rules,
          ¬(d = rule.domain ∨ jsEndsWith d ("." ++ rule.domain) = true
            ∨ d = jsSlice1 rule.domain)) →
        getDomainRuleFind d rules = none) := by
  induction rules with
  | nil =>
    refine ⟨fun rule h => by simp [getDomainRuleFind] at h, ?_, fun _ => rfl⟩
    rintro ⟨rule, hmem, _⟩
    exact absurd hmem (List.not_mem_nil _)
  | cons r rest ih =>
    refine ⟨?_, ?_, ?_⟩
    · intro rule h
      rw [getDomainRuleFind] at h
      split at h
      · rename_i hcond
        injection h with h
        subst h
        exact ⟨List.mem_cons_self _ _, hcond⟩
      · obtain ⟨hmem, hc⟩ := ih.1 rule h
        exact ⟨List.mem_cons_of_mem _ hmem, hc⟩
    · rintro ⟨rule, hmem, hpred⟩
      by_cases hr : d = r.domain ∨ jsEndsWith d ("." ++ r.domain) = true
          ∨ d = jsSlice1 r.domain
      · exact ⟨r, by rw [getDomainRuleFind, if_pos hr]⟩
      · rcases List.mem_cons.mp hmem with rfl | hmem'
        · exact absurd hpred hr
        · obtain ⟨rule', hrule'⟩ := ih.2.1 ⟨rule, hmem', hpred⟩
          exact ⟨rule', by rw [getDomainRuleFind, if_neg hr]; exact hrule'⟩
    · intro hall
      rw [getDomainRuleFind]
      rw [if_neg (hall r (List.mem_cons_self r rest))]
      exact ih.2.2 fun rule hm => hall rule (List.mem_cons_of_mem _ hm)

/-- C6 (amended): `getDomainRule` selects a rule if and only if some listed
rule satisfies its own predicate — the URL's domain equals the rule domain,
ends with `"." + rule.domain`, or equals the rule domain with its first
character removed — and every selected rule satisfies that predicate. This
predicate is not the Domain/Path Matcher's `domainMatches`: the two matchers
in the codebase disagree (see the counterexample), e.g. a rule without a
leading dot also matches subdomains here. -/
theorem getDomainRule_selection_characterization
    (url : String) (rules : List DomainRule) :
    (∀ rule, getDomainRule url (some rules) = some rule →
      rule ∈ rules ∧
        (extractDomainFromUrl url = rule.domain
          ∨ jsEndsWith (extractDomainFromUrl url) ("." ++ rule.domain) = true
          ∨ extractDomainFromUrl url = jsSlice1 rule.domain))
    ∧ ((∃ rule ∈ rules,
          extractDomainFromUrl url = rule.domain
            ∨ jsEndsWith (extractDomainFromUrl url) ("." ++ rule.domain) = true
            ∨ extractDomainFromUrl url = jsSlice1 rule.domain) →
        ∃ rule, getDomainRule url (some rules) = some rule)
    ∧ ((∀ rule ∈ rules,
          ¬(extractDomainFromUrl url = rule.domain
            ∨ jsEndsWith (extractDomainFromUrl url) ("." ++ rule.domain) = true
            ∨ extractDomainFromUrl url = jsSlice1 rule.domain)) →
        getDomainRule url (some rules) = none) :=
  getDomainRuleFind_characterization (extractDomainFromUrl url) rules

/-! ## Capture-policy resolution -/

/-- The slice of the global configuration (`config-store.ts`) read by the
capture-policy resolvers in `undici.ts`. -/
structure GlobalConfig where
  domainAllowList : Option (List DomainRule)
  captureRequestBody : Option Bool
  captureResponseBody : Option Bool
deriving DecidableEq, Repr

/-- `url ? getDomainRule(url, domainAllowList) : undefined`: the guarded
domain-rule lookup of `extractSpanPayload` and of the undici resolvers
(an absent or empty — falsy — url selects no rule). -/
def domainRuleForUrl (url : Option String)
    (domainAllowList : Option (List DomainRule)) : Option DomainRule :=
  match url with
  | some u => if u ≠ "" then getDomainRule u domainAllowList else none
  | none => none

/-- The domain-rule level of `shouldCaptureRequestBody` (`undici.ts`): the
matched rule's `captureRequestBody` when the rule exists and sets it. -/
def requestBodyRuleValue (url : Option String) (cfg : Option GlobalConfig) : Option Bool :=
  match domainRuleForUrl url (cfg.bind GlobalConfig.domainAllowList) with
  | some rule => rule.captureRequestBody
  | none => none

/-- The domain-rule level of `shouldCaptureResponseBody` (`undici.ts`). -/
def responseBodyRuleValue (url : Option String) (cfg : Option GlobalConfig) : Option Bool :=
  match domainRuleForUrl url (cfg.bind GlobalConfig.domainAllowList) with
  | some rule => rule.captureResponseBody
  | none => none

/-- `shouldCaptureRequestBody` from `undici.ts`: context value first, then the
matched domain rule's explicit value, then the global config, then `false`. -/
def shouldCaptureRequestBody (contextValue : Option Bool) (url : Option String)
    (cfg : Option GlobalConfig) : Bool :=
  match contextValue with
  | some b => b
  | none =>
    match requestBodyRuleValue url cfg with
    | some b => b
    | none =>
      match cfg.bind GlobalConfig.captureRequestBody with
      | some b => b
      | none => false

/-- `shouldCaptureResponseBody` from `undici.ts`. -/
def shouldCaptureResponseBody (contextValue : Option Bool) (url : Option String)
    (cfg : Option GlobalConfig) : Bool :=
  match contextValue with
  | some b => b
  | none =>
    match responseBodyRuleValue url cfg with
    | some b => b
    | none =>
      match cfg.bind GlobalConfig.captureResponseBody with
      | some b => b
      | none => false

/-- The `bodyType` discriminator of `shouldCaptureBody` (`span-extractor.ts`). -/
inductive BodyType
  | request
  | response
deriving DecidableEq, Repr

/-- The domain-rule value `shouldCaptureBody` reads for a body type. -/
def domainRuleBodyValue (rule : DomainRule) (bodyType : BodyType) : Option Bool :=
  match bodyType with
  | BodyType.request => rule.captureRequestBody
  | BodyType.response => rule.captureResponseBody

/-- `shouldCaptureBody` from `span-extractor.ts`: the matched domain rule's
explicit value first, then the global config, then `false` (the export stage
has no per-call context level). -/
def shouldCaptureBody (domainRule : Option DomainRule) (globalConfig : Option Bool)
    (bodyType : BodyType) : Bool :=
  let domainValue : Option Bool :=
    match domainRule with
    | some rule => domainRuleBodyValue rule bodyType
    | none => none
  match domainValue with
  | some v => v
  | none =>
    match globalConfig with
    | some g => g
    | none => false

/-- C2: for each capture flag independently, a set per-call context override
always wins; with no override, a matched domain rule's explicit value wins;
with neither, the global configured value applies; with none of the three,
the result is `false`. Unset levels are skipped, never read as `false`
(likewise in the export-stage resolver `shouldCaptureBody`, which has no
context level). -/
theorem captureBody_precedence (url : Option String) (cfg : Option GlobalConfig)
    (domainRule : Option DomainRule) (globalFlag : Option Bool) (bodyType : BodyType) :
    (∀ b, shouldCaptureRequestBody (some b) url cfg = b)
    ∧ (∀ b, shouldCaptureResponseBody (some b) url cfg = b)
    ∧ (∀ b, requestBodyRuleValue url cfg = some b →
        shouldCaptureRequestBody none url cfg = b)
    ∧ (∀ b, requestBodyRuleValue url cfg = none →
        cfg.bind GlobalConfig.captureRequestBody = some b →
        shouldCaptureRequestBody none url cfg = b)
    ∧ (requestBodyRuleValue url cfg = none →
        cfg.bind GlobalConfig.captureRequestBody = none →
        shouldCaptureRequestBody none url cfg = false)
    ∧ (∀ b, responseBodyRuleValue url cfg = some b →
        shouldCaptureResponseBody none url cfg = b)
    ∧ (∀ b, responseBodyRuleValue url cfg = none →
        cfg.bind GlobalConfig.captureResponseBody = some b →
        shouldCaptureResponseBody none url cfg = b)
    ∧ (responseBodyRuleValue url cfg = none →
        cfg.bind GlobalConfig.captureResponseBody = none →
        shouldCaptureResponseBody none url cfg = false)
    ∧ (∀ rule b, domainRule = some rule → domainRuleBodyValue rule bodyType = some b →
        shouldCaptureBody domainRule globalFlag bodyType = b)
    ∧ ((match domainRule with
        | some rule => domainRuleBodyValue rule bodyType
        | none => none) = none →
        shouldCaptureBody domainRule globalFlag bodyType = globalFlag.getD false) := by
  refine ⟨fun b => rfl, fun b => rfl, ?_, ?_, ?_, ?_, ?_, ?_, ?_, ?_⟩
  · intro b h
    simp [shouldCaptureRequestBody, h]
  · intro b h1 h2
    simp [shouldCaptureRequestBody, h1, h2]
  · intro h1 h2
    simp [shouldCaptureRequestBody, h1, h2]
  · intro b h
    simp [shouldCaptureResponseBody, h]
  · intro b h1 h2
    simp [shouldCaptureResponseBody, h1, h2]
  · intro h1 h2
    simp [shouldCaptureResponseBody, h1, h2]
  · intro rule b h1 h2
    subst h1
    simp [shouldCaptureBody, h2]
  · intro h
    simp only [shouldCaptureBody, h]
    cases globalFlag <;> rfl

/-! ## Domain header lists replace global lists (C10) -/

/-- `domainRule?.headersAllowList ?? globalHeadersAllowList` from
`extractSpanPayload` (`span-extractor.ts`). -/
def effectiveHeadersAllowList (url : Option String)
    (domainAllowList : Option (List DomainRule))
    (globalHeadersAllowList : Option (List String)) : Option (List String) :=
  match (domainRuleForUrl url domainAllowList).bind DomainRule.headersAllowList with
  | some l => some l
  | none => globalHeadersAllowList

/-- `domainRule?.headersDenyList ?? globalHeadersDenyList` from
`extractSpanPayload` (`span-extractor.ts`). -/
def effectiveHeadersDenyList (url : Option String)
    (domainAllowList : Option (List DomainRule))
    (globalHeadersDenyList : Option (List String)) : Option (List String) :=
  match (domainRuleForUrl url domainAllowList).bind DomainRule.headersDenyList with
  | some l => some l
  | none => globalHeadersDenyList

/-- C10: when the matched `DomainRule` provides a header allow or deny list,
that list fully replaces the corresponding global list for the call — it is
never merged with it; the global list applies exactly when the rule leaves
that list unset (or no rule matches). -/
theorem domainHeaderLists_replace_global
    (url : Option String) (domainAllowList : Option (List DomainRule))
    (globalAllow globalDeny : Option (List String)) :
    (∀ rule l, domainRuleForUrl url domainAllowList = some rule →
      rule.headersAllowList = some l →
      effectiveHeadersAllowList url domainAllowList globalAllow = some l)
    ∧ (∀ rule, domainRuleForUrl url domainAllowList = some rule →
        rule.headersAllowList = none →
        effectiveHeadersAllowList url domainAllowList globalAllow = globalAllow)
    ∧ (domainRuleForUrl url domainAllowList = none →
        effectiveHeadersAllowList url domainAllowList globalAllow = globalAllow)
    ∧ (∀ rule l, domainRuleForUrl url domainAllowList = some rule →
        rule.headersDenyList = some l →
        effectiveHeadersDenyList url domainAllowList globalDeny = some l)
    ∧ (∀ rule, domainRuleForUrl url domainAllowList = some rule →
        rule.headersDenyList = none →
        effectiveHeadersDenyList url domainAllowList globalDeny = globalDeny)
    ∧ (domainRuleForUrl url domainAllowList = none →
        effectiveHeadersDenyList url domainAllowList globalDeny = globalDeny) := by
  refine ⟨?_, ?_, ?_, ?_, ?_, ?_⟩
  · intro rule l h1 h2
    simp [effectiveHeadersAllowList, h1, h2]
  · intro rule h1 h2
    simp [effectiveHeadersAllowList, h1, h2]
  · intro h
    simp [effectiveHeadersAllowList, h]
  · intro rule l h1 h2
    simp [effectiveHeadersDenyList, h1, h2]
  · intro rule h1 h2
    simp [effectiveHeadersDenyList, h1, h2]
  · intro h
    simp [effectiveHeadersDenyList, h]

/-! ## Body buffer of the undici instrumentation (C1) -/

/-- The byte counter of an `InstrumentationRecord` side: a number, or the
`Infinity` sentinel the code assigns once a chunk would exceed the ceiling. -/
inductive BodySize
  | fin (n : Nat)
  | inf
deriving DecidableEq, Repr

/-- One side's accumulation state: `requestBodyChunks`/`requestBodySize` or
`responseBodyChunks`/`responseBodySize` of an `InstrumentationRecord`
(`undici.ts`); buffers are byte lists. -/
structure BodyBufferState where
  chunks : List (List Nat)
  size : BodySize
deriving DecidableEq, Repr

/-- The chunk-accumulation step shared by `onBodyChunkSent` and
`onBodyChunkReceived` (`undici.ts`): append while
`size + chunk.length <= maxSize`; otherwise discard everything accumulated
and set the size sentinel to `Infinity` (under which the guard is always
false, so the state stays discarded). -/
def bodyBufferStep (maxSize : Nat) (st : BodyBufferState) (chunk : List Nat) :
    BodyBufferState :=
  match st.size with
  | BodySize.fin n =>
    if n + chunk.length ≤ maxSize then
      { chunks := st.chunks ++ [chunk], size := BodySize.fin (n + chunk.length) }
    else
      { chunks := [], size := BodySize.inf }
  | BodySize.inf => { chunks := [], size := BodySize.inf }

/-- The state a fresh `InstrumentationRecord` starts from. -/
def initialBodyBuffer : BodyBufferState :=
  { chunks := [], size := BodySize.fin 0 }

/-- Feed a stream of chunks through the accumulation step. -/
def runBodyBuffer (maxSize : Nat) (chunks : List (List Nat)) : BodyBufferState :=
  chunks.foldl (bodyBufferStep maxSize) initialBodyBuffer

/-- The synthetic diagnostic `onBodySent` exports for a truncated request
body, naming the configured ceiling. -/
def truncatedRequestMessage (maxRequestBodySize : Nat) : String :=
  "[truncated request body; exceeded maxRequestBodySize="
    ++ toString maxRequestBodySize ++ "]"

/-- The synthetic diagnostic `onDone` exports for a truncated response body,
naming the configured ceiling, content type and content encoding. -/
def truncatedResponseMessage (maxResponseBodySize : Nat)
    (contentType contentEncoding : Option String) : String :=
  "[truncated response body; exceeded maxResponseBodySize="
    ++ toString maxResponseBodySize
    ++ "; content-type=" ++ contentType.getD "unknown"
    ++ "; content-encoding=" ++ contentEncoding.getD "identity" ++ "]"

/-- `COMPRESSED_ENCODINGS` from `body-decoder.ts`. -/
def COMPRESSED_ENCODINGS : List String :=
  ["gzip", "br", "deflate", "x-gzip", "x-deflate"]

/-- `normalizeHeaderValue` from `body-decoder.ts` on the `string | undefined`
values its caller passes: trim, and treat the empty result as undefined. -/
def normalizeHeaderValue (v : Option String) : Option String :=
  match v with
  | none => none
  | some s =>
    let t := jsTrim s
    if t = "" then none else some t

/-- `isCompressedContentEncoding` from `body-decoder.ts`: the first token of
the comma-separated list (`raw.split(",")[0]`), trimmed and lowercased, must
be a known compressed encoding. -/
def isCompressedContentEncoding (headerValue : Option String) : Bool :=
  match normalizeHeaderValue headerValue with
  | none => false
  | some raw =>
    let first := jsToLower (jsTrim (String.mk (raw.data.takeWhile fun c => c != ',')))
    COMPRESSED_ENCODINGS.contains first

/-- `bufferToBodyString` from `body-decoder.ts`, with Node's
`Buffer.toString("utf8")` passed in as the abstract byte decoder `utf8`:
`null` for a missing or empty buffer. -/
def bufferToBodyString (utf8 : List Nat → String) (buffer : Option (List Nat)) :
    Option String :=
  match buffer with
  | none => none
  | some b => if b.length = 0 then none else some (utf8 b)

/-- The response-body attribute `onDone` (`undici.ts`) sets when
response-body capture is enabled: the truncation diagnostic when the size
sentinel is `Infinity`; otherwise, with chunks present, the base64 rendering
for compressed bodies or `bufferToBodyString`. `utf8` and `base64` abstract
Node's `Buffer.toString` encodings. -/
def onDoneResponseBodyAttr (utf8 base64 : List Nat → String)
    (maxResponseBodySize : Nat) (contentType contentEncoding : Option String)
    (st : BodyBufferState) : Option String :=
  match st.size with
  | BodySize.inf =>
    some (truncatedResponseMessage maxResponseBodySize contentType contentEncoding)
  | BodySize.fin _ =>
    if st.chunks.isEmpty then none
    else
      let buf := st.chunks.flatten
      if isCompressedContentEncoding contentEncoding then some (base64 buf)
      else bufferToBodyString utf8 (some buf)

/-- The request-body attribute `onBodySent` (`undici.ts`) sets when
request-body capture is enabled (an empty decoded string is falsy and sets
no attribute). -/
def onBodySentRequestAttr (utf8 : List Nat → String) (maxRequestBodySize : Nat)
    (st : BodyBufferState) : Option String :=
  match st.size with
  | BodySize.inf => some (truncatedRequestMessage maxRequestBodySize)
  | BodySize.fin _ =>
    if st.chunks.isEmpty then none
    else
      let s := utf8 st.chunks.flatten
      if s = "" then none else some s

/-- A run that ends with a finite size kept every chunk: the buffer is the
whole stream and the counter its total length. -/
theorem runBodyBuffer_fin (maxSize : Nat) (chunks : List (List Nat)) :
    ∀ st n, (chunks.foldl (bodyBufferStep maxSize) st).size = BodySize.fin n →
      ∃ k, st.size = BodySize.fin k
        ∧ (chunks.foldl (bodyBufferStep maxSize) st).chunks = st.chunks ++ chunks
        ∧ n = k + (chunks.map List.length).sum := by
  induction chunks with
  | nil =>
    intro st n h
    exact ⟨n, h, by simp, by simp⟩
  | cons c cs ih =>
    intro st n h
    rw [List.foldl_cons] at h
    obtain ⟨k', hk', hchunks, hn⟩ := ih (bodyBufferStep maxSize st c) n h
    cases hs : st.size with
    | inf =>
      simp [bodyBufferStep, hs] at hk'
    | fin m =>
      by_cases hle : m + c.length ≤ maxSize
      · have hstep : bodyBufferStep maxSize st c
            = { chunks := st.chunks ++ [c], size := BodySize.fin (m + c.length) } := by
          simp [bodyBufferStep, hs, hle]
        rw [hstep] at hk' hchunks
        simp only at hk'
        injection hk' with hk'
        refine ⟨m, rfl, ?_, ?_⟩
        · rw [List.foldl_cons, hstep] at *
          simpa [List.append_assoc] using hchunks
        · simp [hn, ← hk', List.map_cons, List.sum_cons]
          omega
      · have hstep : bodyBufferStep maxSize st c
            = { chunks := [], size := BodySize.inf } := by
          simp [bodyBufferStep, hs, hle]
        rw [hstep] at hk'
        simp at hk'

/-- The finite counter never exceeds the ceiling. -/
theorem runBodyBuffer_fin_le (maxSize : Nat) (chunks : List (List Nat)) :
    ∀ st, (∀ k, st.size = BodySize.fin k → k ≤ maxSize) →
      ∀ n, (chunks.foldl (bodyBufferStep maxSize) st).size = BodySize.fin n →
        n ≤ maxSize := by
  induction chunks with
  | nil =>
    intro st hst n h
    exact hst n h
  | cons c cs ih =>
    intro st hst n h
    rw [List.foldl_cons] at h
    refine ih (bodyBufferStep maxSize st c) ?_ n h
    intro k hk
    cases hs : st.size with
    | inf =>
      rw [show bodyBufferStep maxSize st c = { chunks := [], size := BodySize.inf } from
        by simp [bodyBufferStep, hs]] at hk
      simp at hk
    | fin m =>
      by_cases hle : m + c.length ≤ maxSize
      · rw [show bodyBufferStep maxSize st c
            = { chunks := st.chunks ++ [c], size := BodySize.fin (m + c.length) } from
          by simp [bodyBufferStep, hs, hle]] at hk
        simp only at hk
        injection hk with hk
        omega
      · rw [show bodyBufferStep maxSize st c = { chunks := [], size := BodySize.inf } from
          by simp [bodyBufferStep, hs, hle]] at hk
        simp at hk

/-- A run that hit the sentinel holds no chunks. -/
theorem runBodyBuffer_inf_chunks (maxSize : Nat) (chunks : List (List Nat)) :
    ∀ st, (st.size = BodySize.inf → st.chunks = []) →
      (chunks.foldl (bodyBufferStep maxSize) st).size = BodySize.inf →
      (chunks.foldl (bodyBufferStep maxSize) st).chunks = [] := by
  induction chunks with
  | nil =>
    intro st hst h
    exact hst h
  | cons c cs ih =>
    intro st hst h
    rw [List.foldl_cons] at h ⊢
    refine ih (bodyBufferStep maxSize st c) ?_ h
    intro hk
    cases hs : st.size with
    | inf => simp [bodyBufferStep, hs]
    | fin m =>
      by_cases hle : m + c.length ≤ maxSize
      · rw [show bodyBufferStep maxSize st c
            = { chunks := st.chunks ++ [c], size := BodySize.fin (m + c.length) } from
          by simp [bodyBufferStep, hs, hle]] at hk
        simp at hk
      · simp [bodyBufferStep, hs, hle]

/-- C1: chunks are appended only while `accumulated + incoming ≤ ceiling`; the
first excess discards the whole buffer for that side and marks it truncated
(`Infinity`); a finished side is either complete (all bytes, total `≤`
ceiling) or empty-and-truncated — never a partial prefix — and on finalize a
truncated side exports exactly the synthetic diagnostic naming the configured
ceiling, for the response (`onDone`) and the request (`onBodySent`) alike. -/
theorem bodyBuffer_truncation (maxSize : Nat) (chunks : List (List Nat))
    (utf8 base64 : List Nat → String) (contentType contentEncoding : Option String) :
    (∀ n, (runBodyBuffer maxSize chunks).size = BodySize.fin n →
      (runBodyBuffer maxSize chunks).chunks = chunks
        ∧ n = (chunks.map List.length).sum ∧ n ≤ maxSize)
    ∧ ((runBodyBuffer maxSize chunks).size = BodySize.inf →
        (runBodyBuffer maxSize chunks).chunks = [])
    ∧ (maxSize < (chunks.map List.length).sum →
        (runBodyBuffer maxSize chunks).size = BodySize.inf)
    ∧ (∀ st chunk n, st.size = BodySize.fin n → n + chunk.length ≤ maxSize →
        bodyBufferStep maxSize st chunk
          = { chunks := st.chunks ++ [chunk], size := BodySize.fin (n + chunk.length) })
    ∧ (∀ st chunk n, st.size = BodySize.fin n → maxSize < n + chunk.length →
        bodyBufferStep maxSize st chunk = { chunks := [], size := BodySize.inf })
    ∧ ((runBodyBuffer maxSize chunks).size = BodySize.inf →
        onDoneResponseBodyAttr utf8 base64 maxSize contentType contentEncoding
            (runBodyBuffer maxSize chunks)
          = some (truncatedResponseMessage maxSize contentType contentEncoding)
        ∧ onBodySentRequestAttr utf8 maxSize (runBodyBuffer maxSize chunks)
          = some (truncatedRequestMessage maxSize)) := by
  have hfin : ∀ n, (runBodyBuffer maxSize chunks).size = BodySize.fin n →
      (runBodyBuffer maxSize chunks).chunks = chunks
        ∧ n = (chunks.map List.length).sum ∧ n ≤ maxSize := by
    intro n h
    obtain ⟨k, hk, hchunks, hn⟩ := runBodyBuffer_fin maxSize chunks initialBodyBuffer n h
    have hk0 : k = 0 := by
      have : BodySize.fin 0 = BodySize.fin k := hk
      injection this with h'
      omega
    refine ⟨by simpa using hchunks, by omega, ?_⟩
    exact runBodyBuffer_fin_le maxSize chunks initialBodyBuffer
      (fun k' hk' => by simp [initialBodyBuffer] at hk'; omega) n h
  refine ⟨hfin, ?_, ?_, ?_, ?_, ?_⟩
  · intro h
    exact runBodyBuffer_inf_chunks maxSize chunks initialBodyBuffer (fun _ => rfl) h
  · intro hsum
    cases hsz : (runBodyBuffer maxSize chunks).size with
    | inf => rfl
    | fin n =>
      obtain ⟨_, hn, hle⟩ := hfin n hsz
      omega
  · intro st chunk n h hle
    simp [bodyBufferStep, h, hle]
  · intro st chunk n h hgt
    have hnle : ¬ n + chunk.length ≤ maxSize := by omega
    simp [bodyBufferStep, h, hnle]
  · intro h
    constructor
    · simp [onDoneResponseBodyAttr, h]
    · simp [onBodySentRequestAttr, h]

/-! ## Network timing derivation (C9) -/

/-- `NetworkTimings` from `http.ts`: every mark optional (`number | undefined`),
values are `Date.now()` milliseconds. -/
structure NetworkTimings where
  startAt : Option Int
  dnsLookupAt : Option Int
  tcpConnectionAt : Option Int
  tlsHandshakeAt : Option Int
  firstByteAt : Option Int
  endAt : Option Int
deriving DecidableEq, Repr

/-- One guarded duration of `processNetworkTimings`: `if (a && b)` (JS number
truthiness: present and nonzero) sets `b - a`, otherwise nothing. -/
def tdiff (a b : Option Int) : Option Int :=
  match a, b with
  | some x, some y => if x ≠ 0 ∧ y ≠ 0 then some (y - x) else none
  | _, _ => none

/-- JS `a || b` on `number | undefined` operands. -/
def jsOrNum (a b : Option Int) : Option Int :=
  match a with
  | some v => if v ≠ 0 then some v else b
  | none => b

/-- The derived-duration span attributes `processNetworkTimings` sets. -/
structure DerivedTimings where
  dnsLookup : Option Int
  tcpConnect : Option Int
  tlsHandshake : Option Int
  ttfb : Option Int
  contentTransfer : Option Int
deriving DecidableEq, Repr

/-- `processNetworkTimings` from `http.ts`: each attribute is set only when
its truthiness guard passes; `startTTFB` is `tlsHandshakeAt || tcpConnectionAt`. -/
def processNetworkTimings (t : NetworkTimings) : DerivedTimings :=
  { dnsLookup := tdiff t.startAt t.dnsLookupAt
    tcpConnect := tdiff t.dnsLookupAt t.tcpConnectionAt
    tlsHandshake := tdiff t.tcpConnectionAt t.tlsHandshakeAt
    ttfb := tdiff (jsOrNum t.tlsHandshakeAt t.tcpConnectionAt) t.firstByteAt
    contentTransfer := tdiff t.firstByteAt t.endAt }

/-- A present timing mark is positive (a `Date.now()` value). -/
def PositiveTimestamp : Option Int → Prop
  | some v => 0 < v
  | none => True

instance instDecidablePositiveTimestamp (o : Option Int) :
    Decidable (PositiveTimestamp o) :=
  match o with
  | some v => inferInstanceAs (Decidable (0 < v))
  | none => inferInstanceAs (Decidable True)

/-- TCP connect does not happen after the TLS handshake (monotonic marks). -/
def MonoTcpTls : Option Int → Option Int → Prop
  | some x, some y => x ≤ y
  | _, _ => True

instance instDecidableMonoTcpTls (a b : Option Int) : Decidable (MonoTcpTls a b) :=
  match a, b with
  | some x, some y => inferInstanceAs (Decidable (x ≤ y))
  | some _, none => inferInstanceAs (Decidable True)
  | none, some _ => inferInstanceAs (Decidable True)
  | none, none => inferInstanceAs (Decidable True)

/-- All six marks of a timing record are positive when present. -/
def TimingsPositive (t : NetworkTimings) : Prop :=
  PositiveTimestamp t.startAt ∧ PositiveTimestamp t.dnsLookupAt
    ∧ PositiveTimestamp t.tcpConnectionAt ∧ PositiveTimestamp t.tlsHandshakeAt
    ∧ PositiveTimestamp t.firstByteAt ∧ PositiveTimestamp t.endAt

/-- C9: under monotonic positive timing marks, each derived metric is set
exactly when both of its endpoints are present, with the stated value
(`ttfb` subtracts the later of the TLS-handshake and TCP-connect marks);
any missing endpoint silently omits just that metric — no negative or
garbage value is produced from a missing endpoint. -/
theorem processNetworkTimings_endpoints (t : NetworkTimings)
    (hpos : TimingsPositive t)
    (hmono : MonoTcpTls t.tcpConnectionAt t.tlsHandshakeAt) :
    (processNetworkTimings t).dnsLookup
        = (match t.startAt, t.dnsLookupAt with
           | some s, some d => some (d - s)
           | _, _ => none)
    ∧ (processNetworkTimings t).tcpConnect
        = (match t.dnsLookupAt, t.tcpConnectionAt with
           | some d, some c => some (c - d)
           | _, _ => none)
    ∧ (processNetworkTimings t).tlsHandshake
        = (match t.tcpConnectionAt, t.tlsHandshakeAt with
           | some c, some h => some (h - c)
           | _, _ => none)
    ∧ (processNetworkTimings t).ttfb
        = (match t.firstByteAt, t.tlsHandshakeAt, t.tcpConnectionAt with
           | some f, some h, some c => some (f - max c h)
           | some f, some h, none => some (f - h)
           | some f, none, some c => some (f - c)
           | _, _, _ => none)
    ∧ (processNetworkTimings t).contentTransfer
        = (match t.firstByteAt, t.endAt with
           | some f, some e => some (e - f)
           | _, _ => none) := by
  obtain ⟨h1, h2, h3, h4, h5, h6⟩ := hpos
  refine ⟨?_, ?_, ?_, ?_, ?_⟩
  · cases hs : t.startAt with
    | none => simp [processNetworkTimings, tdiff, hs]
    | some s =>
      cases hd : t.dnsLookupAt with
      | none => simp [processNetworkTimings, tdiff, hs, hd]
      | some d =>
        rw [hs] at h1
        rw [hd] at h2
        simp only [PositiveTimestamp] at h1 h2
        simp [processNetworkTimings, tdiff, hs, hd,
          show s ≠ 0 by omega, show d ≠ 0 by omega]
  · cases hd : t.dnsLookupAt with
    | none => simp [processNetworkTimings, tdiff, hd]
    | some d =>
      cases hc : t.tcpConnectionAt with
      | none => simp [processNetworkTimings, tdiff, hd, hc]
      | some c =>
        rw [hd] at h2
        rw [hc] at h3
        simp only [PositiveTimestamp] at h2 h3
        simp [processNetworkTimings, tdiff, hd, hc,
          show d ≠ 0 by omega, show c ≠ 0 by omega]
  · cases hc : t.tcpConnectionAt with
    | none => simp [processNetworkTimings, tdiff, hc]
    | some c =>
      cases hh : t.tlsHandshakeAt with
      | none => simp [processNetworkTimings, tdiff, hc, hh]
      | some h =>
        rw [hc] at h3
        rw [hh] at h4
        simp only [PositiveTimestamp] at h3 h4
        simp [processNetworkTimings, tdiff, hc, hh,
          show c ≠ 0 by omega, show h ≠ 0 by omega]
  · cases hf : t.firstByteAt with
    | none =>
      cases hh : t.tlsHandshakeAt with
      | none =>
        cases hc : t.tcpConnectionAt with
        | none => simp [processNetworkTimings, tdiff, jsOrNum, hf, hh, hc]
        | some c =>
          rw [hc] at h3
          simp only [PositiveTimestamp] at h3
          simp [processNetworkTimings, tdiff, jsOrNum, hf, hh, hc,
            show c ≠ 0 by omega]
      | some h =>
        rw [hh] at h4
        simp only [PositiveTimestamp] at h4
        simp [processNetworkTimings, tdiff, jsOrNum, hf, hh,
          show h ≠ 0 by omega]
    | some f =>
      rw [hf] at h5
      simp only [PositiveTimestamp] at h5
      cases hh : t.tlsHandshakeAt with
      | none =>
        cases hc : t.tcpConnectionAt with
        | none => simp [processNetworkTimings, tdiff, jsOrNum, hf, hh, hc]
        | some c =>
          rw [hc] at h3
          simp only [PositiveTimestamp] at h3
          simp [processNetworkTimings, tdiff, jsOrNum, hf, hh, hc,
            show c ≠ 0 by omega, show f ≠ 0 by omega]
      | some h =>
        rw [hh] at h4
        simp only [PositiveTimestamp] at h4
        cases hc : t.tcpConnectionAt with
        | none =>
          simp [processNetworkTimings, tdiff, jsOrNum, hf, hh, hc,
            show h ≠ 0 by omega, show f ≠ 0 by omega]
        | some c =>
          rw [hc, hh] at hmono
          simp only [MonoTcpTls] at hmono
          simp [processNetworkTimings, tdiff, jsOrNum, hf, hh, hc,
            show h ≠ 0 by omega, show f ≠ 0 by omega, max_eq_right hmono]
  · cases hf : t.firstByteAt with
    | none => simp [processNetworkTimings, tdiff, hf]
    | some f =>
      cases he : t.endAt with
      | none => simp [processNetworkTimings, tdiff, hf, he]
      | some e =>
        rw [hf] at h5
        rw [he] at h6
        simp only [PositiveTimestamp] at h5 h6
        simp [processNetworkTimings, tdiff, hf, he,
          show f ≠ 0 by omega, show e ≠ 0 by omega]

/-- A concrete monotone timing record for the witness. -/
def exampleTimings : NetworkTimings :=
  { startAt := some 100, dnsLookupAt := some 110, tcpConnectionAt := some 120,
    tlsHandshakeAt := some 130, firstByteAt := some 150, endAt := some 200 }

/-- C9 witness: on a fully populated monotone record every derived duration
comes out as the stated difference. -/
theorem processNetworkTimings_endpoints_witness :
    (processNetworkTimings exampleTimings).dnsLookup = some 10
    ∧ (processNetworkTimings exampleTimings).tcpConnect = some 10
    ∧ (processNetworkTimings exampleTimings).tlsHandshake = some 10
    ∧ (processNetworkTimings exampleTimings).ttfb = some 20
    ∧ (processNetworkTimings exampleTimings).contentTransfer = some 50 :=
  have h := processNetworkTimings_endpoints exampleTimings
    ⟨by decide, by decide, by decide, by decide, by decide, by decide⟩ (by decide)
  ⟨h.1.trans (by decide), h.2.1.trans (by decide), h.2.2.1.trans (by decide),
   h.2.2.2.1.trans (by decide), h.2.2.2.2.trans (by decide)⟩
